import Mathlib

/-!
# Verification of the arti core against its specification

Shallow embedding, in Lean 4, of the parts of the repository covered by the
claims under review:

* `crates/tor-hspow/src/v1/challenge.rs` — the proof-of-work challenge string
  (`Challenge::new`, the field accessors, `increment_nonce`, `check_effort`);
* `crates/tor-proto/src/circuit/streammap.rs` — the per-hop stream map
  (`add_ent`, `add_ent_with_id`, `ending_msg_received`, `terminate`,
  `take_ready_msg`, `wrapping_next_stream_id`);
* `crates/tor-hsservice/src/timeout_track.rs` — the single-clock timeout
  trackers (`TrackingSystemTimeNow::cmp`, `instant_cmp`, `update_inner`);
* `crates/tor-llcrypto/src/pk/keymanip.rs` — ed25519 key blinding
  (`blind_pubkey`, `blind_keypair`, `clamp_blinding_factor`).

Machine bytes are modelled as `Nat` with an explicit `< 256` bound where it
matters; `u32` arithmetic carries an explicit `% 2 ^ 32` / `< 2 ^ 32` bound.
Structures with interior mutability (`&mut self` methods, `Cell`) are modelled
by explicit state passing: a Rust method `fn f(&mut self, ..) -> T` becomes a
Lean function `f : State → .. → T × State`.

The file is organised as definitions first, then theorems.
-/

namespace Arti

/-! ## Byte-string helpers

Little-endian and big-endian interpretation of byte lists, used by the
challenge code (`u32::from_be_bytes`, `u32::to_be_bytes`, and the
little-endian nonce increment).
-/

/-- Little-endian value of a byte list (index 0 is least significant). -/
def leVal : List Nat → Nat
  | [] => 0
  | b :: rest => b + 256 * leVal rest

/-- Little-endian encoding of `n` into exactly `len` bytes (dropping overflow). -/
def leEnc : Nat → Nat → List Nat
  | 0, _ => []
  | len + 1, n => n % 256 :: leEnc len (n / 256)

/-- Big-endian value of a byte list, as computed by `u32::from_be_bytes`. -/
def beVal (l : List Nat) : Nat :=
  l.foldl (fun acc b => acc * 256 + b) 0

/-- `u32::to_be_bytes`: the four big-endian bytes of a `u32`. -/
def toBeBytes4 (e : Nat) : List Nat :=
  [e / 2 ^ 24 % 256, e / 2 ^ 16 % 256, e / 2 ^ 8 % 256, e % 256]

/-- A byte list is well formed when every element is an actual byte. -/
def BytesWF (l : List Nat) : Prop := ∀ b ∈ l, b < 256

instance : DecidablePred BytesWF := fun l =>
  inferInstanceAs (Decidable (∀ b ∈ l, b < 256))

/-! ## PoW challenge strings (`crates/tor-hspow/src/v1/challenge.rs`)

A `Challenge` is a packed byte string `P || ID || C || N || INT_32(E)`.
We model it as a `List Nat` of bytes.  The constants mirror the source:
`P_STRING_LEN = 16`, `ID_LEN = 32`, `SEED_OFFSET = 48`, `NONCE_OFFSET = 80`,
`EFFORT_OFFSET = 96`, `EFFORT_LEN = 4`, `CHALLENGE_LEN = 100`.
`SEED_LEN = 32` and `NONCE_LEN = 16` come from the crate's `v1` module.
-/

/-- Algorithm personalization string (P): the bytes of `"Tor hs intro v1\0"`. -/
def P_STRING : List Nat :=
  [0x54, 0x6f, 0x72, 0x20, 0x68, 0x73, 0x20, 0x69,
   0x6e, 0x74, 0x72, 0x6f, 0x20, 0x76, 0x31, 0x00]

/-- Length of the personalization string, in bytes. -/
def P_STRING_LEN : Nat := 16

/-- Length of the HsBlindId. -/
def ID_LEN : Nat := 32

/-- Length of a `Seed` (`SEED_LEN` in the crate's `v1` module). -/
def SEED_LEN : Nat := 32

/-- Length of a `Nonce` (`NONCE_LEN` in the crate's `v1` module). -/
def NONCE_LEN : Nat := 16

/-- Location of the `Seed` within a `Challenge`. -/
def SEED_OFFSET : Nat := P_STRING_LEN + ID_LEN

/-- Location of the `Nonce` within a `Challenge`. -/
def NONCE_OFFSET : Nat := SEED_OFFSET + SEED_LEN

/-- Location of the `Effort` within a `Challenge`. -/
def EFFORT_OFFSET : Nat := NONCE_OFFSET + NONCE_LEN

/-- Packed length of an `Effort`, in bytes. -/
def EFFORT_LEN : Nat := 4

/-- Total length of an Equi-X challenge string. -/
def CHALLENGE_LEN : Nat := EFFORT_OFFSET + EFFORT_LEN

/-- `Challenge::new`: concatenate personalization, service identity, seed,
nonce, and the effort as big-endian `u32`.  (`instance.service()` is the
service identity, `instance.seed()` the seed.) -/
def Challenge.new (service seed nonce : List Nat) (effort : Nat) : List Nat :=
  P_STRING ++ service ++ seed ++ nonce ++ toBeBytes4 effort

/-- `Challenge::seed`: clone the `Seed` portion of the challenge. -/
def Challenge.seed (ch : List Nat) : List Nat :=
  ((ch.drop SEED_OFFSET).take SEED_LEN)

/-- `Challenge::nonce`: clone the `Nonce` portion of the challenge. -/
def Challenge.nonce (ch : List Nat) : List Nat :=
  ((ch.drop NONCE_OFFSET).take NONCE_LEN)

/-- `Challenge::effort`: `u32::from_be_bytes` of the effort field. -/
def Challenge.effort (ch : List Nat) : Nat :=
  beVal ((ch.drop EFFORT_OFFSET).take EFFORT_LEN)

/-- `inc_le_bytes`: wrapping increment of a little-endian byte slice.
For each byte in order, `overflowing_add(1)` wraps `255` to `0` and carries
into the next byte; the loop stops at the first byte that does not overflow.
(Bytes are `u8`, so inputs are `< 256`.) -/
def incLeBytes : List Nat → List Nat
  | [] => []
  | b :: rest => if b < 255 then (b + 1) :: rest else 0 :: incLeBytes rest

/-- `Challenge::increment_nonce`: apply `inc_le_bytes` to the 16-byte
nonce region of the challenge, leaving the rest untouched. -/
def Challenge.incrementNonce (ch : List Nat) : List Nat :=
  ch.take NONCE_OFFSET
    ++ incLeBytes ((ch.drop NONCE_OFFSET).take NONCE_LEN)
    ++ ch.drop (NONCE_OFFSET + NONCE_LEN)

/-- Error type for `v1` solution checks: `check_effort` fails with
`SolutionError::Effort`. -/
inductive SolutionError where
  | Effort
  deriving DecidableEq

/-- `u32::checked_mul`: `some` of the product when it fits in a `u32`,
`none` on overflow.  (Faithful for arguments that are themselves `u32`s.) -/
def checkedMulU32 (a b : Nat) : Option Nat :=
  if a * b < 2 ^ 32 then some (a * b) else none

/-- `Challenge::check_effort`: hash the challenge followed by the serialized
Equi-X solution with 4-byte Blake2b, read the result as a big-endian `u32`,
and succeed iff multiplying it by the challenge's effort does not overflow.
The Blake2b hash itself is an external primitive (the `blake2` crate); it is
passed in as a function producing the 4-byte digest. -/
def Challenge.checkEffort (blake2b : List Nat → List Nat) (ch sol : List Nat) :
    Except SolutionError Unit :=
  let value := beVal (blake2b (ch ++ sol))
  match checkedMulU32 value (Challenge.effort ch) with
  | some _ => Except.ok ()
  | none => Except.error SolutionError.Effort

/-! ## The stream map (`crates/tor-proto/src/circuit/streammap.rs`)

Stream identifiers are `NonZeroU16` in the source; we model them as `Nat`
and track the validity range `1..=0xFFFF` through hypotheses.  The backing
`CountedHashMap` (from `streammap/counted_map.rs`, not part of the sources
under review) is modelled as an association list with standard map
semantics; its cached open-stream count plays no part in the claims below.
The `StreamPollSet` (`util/stream_poll_set.rs`, likewise external) is
modelled from the spec as a list of `(stream id, priority, pending
outbound messages)` triples.
-/

/-- A stream identifier (`StreamId`, a `NonZeroU16` in the source). -/
abbrev StreamId := Nat

/-- Entry for an open stream.  The sink and the command checker are opaque
to the map logic and are carried as plain tokens. -/
structure OpenStreamEnt where
  sink : Nat
  sendWindow : Nat
  dropped : Nat
  cmdChecker : Nat
  deriving DecidableEq

/-- Modelled from the spec: a half-stream validator (`HalfStream`, from
`circuit/halfstream.rs`, which is not among the sources under review) holds
the frozen send window, a fresh receive window and the command checker. -/
structure HalfStream where
  sendWindow : Nat
  recvWindow : Nat
  cmdChecker : Nat
  deriving DecidableEq

/-- Entry for a stream where we have sent an END. -/
structure EndSentStreamEnt where
  halfStream : HalfStream
  explicitlyDropped : Bool
  deriving DecidableEq

/-- The entry for a stream. -/
inductive StreamEnt where
  | Open (e : OpenStreamEnt)
  | EndReceived
  | EndSent (e : EndSentStreamEnt)
  deriving DecidableEq

/-- Whether to send an END cell when terminating a stream. -/
inductive ShouldSendEnd where
  | Send
  | DontSend
  deriving DecidableEq

/-- A reason for terminating a stream. -/
inductive TerminateReason where
  | StreamTargetClosed
  | ExplicitEnd
  deriving DecidableEq

/-- The error kinds surfaced by the stream map (`tor_proto::Error` variants
actually used by `streammap.rs`; `internal!` and `bad_api_usage!` wrap their
messages). -/
inductive Error where
  | IdRangeFull
  | IdUnavailable (id : StreamId)
  | CircProto (msg : String)
  | Internal (msg : String)
  | BadApiUsage (msg : String)
  deriving DecidableEq

/-- Map lookup (`HashMap::get` / the `Occupied` check of `HashMap::entry`). -/
def lookupM : List (StreamId × StreamEnt) → StreamId → Option StreamEnt
  | [], _ => none
  | (k, v) :: rest, id => if k = id then some v else lookupM rest id

/-- Map removal (`HashMap::remove` / `OccupiedEntry::remove_entry`). -/
def removeM (m : List (StreamId × StreamEnt)) (id : StreamId) :
    List (StreamId × StreamEnt) :=
  m.filter (fun p => p.1 != id)

/-- In-place replacement of the value at a key
(`OccupiedEntry::insert` / `HashMap::insert` on a present key). -/
def replaceM (m : List (StreamId × StreamEnt)) (id : StreamId) (v : StreamEnt) :
    List (StreamId × StreamEnt) :=
  m.map (fun p => if p.1 = id then (id, v) else p)

/-- `StreamPollSet::remove`: drop the scheduling entry for a stream. -/
def removeRx (rxs : List (StreamId × Nat × List Nat)) (id : StreamId) :
    List (StreamId × Nat × List Nat) :=
  rxs.filter (fun e => e.1 != id)

/-- Modelled from the spec: `RECV_WINDOW_INIT` (from `circuit/reactor.rs`,
not among the sources under review) — the configured initial receive credit
of a stream, 500 in Tor. -/
def RECV_WINDOW_INIT : Nat := 500

/-- A map from stream IDs to stream entries, one per circuit hop.

* `m` — the `CountedHashMap` from ids to entries;
* `rxs` — the `StreamPollSet` of outbound-message sources with priorities;
* `nextStreamId` — the next stream id to try;
* `nextPriority` — the next priority to use in `rxs`. -/
structure StreamMap where
  m : List (StreamId × StreamEnt)
  rxs : List (StreamId × Nat × List Nat)
  nextStreamId : StreamId
  nextPriority : Nat
  deriving DecidableEq

/-- `StreamMap::new`, with the randomly drawn initial `NonZeroU16` stream id
passed in explicitly. -/
def StreamMap.new (initId : StreamId) : StreamMap :=
  { m := [], rxs := [], nextStreamId := initId, nextPriority := 0 }

/-- `wrapping_next_stream_id`: `NonZeroU16::checked_add(1)`, falling back to
`1` when the increment would leave the `u16` range. -/
def wrappingNextStreamId (id : StreamId) : StreamId :=
  if id + 1 ≤ 0xFFFF then id + 1 else 1

/-- The probe loop of `StreamMap::add_ent` (`for _ in 1..=65536`), with the
remaining number of iterations as fuel.  Each iteration reads
`next_stream_id`, advances it with `wrapping_next_stream_id`, and inserts at
the probed id if it is vacant, enrolling the source in `rxs` with a freshly
taken priority (`take_next_priority`). -/
def addEntLoop (ent : StreamEnt) (rx : List Nat) :
    Nat → StreamMap → Except Error StreamId × StreamMap
  | 0, s => (Except.error Error.IdRangeFull, s)
  | fuel + 1, s =>
    let id := s.nextStreamId
    let s1 : StreamMap := { s with nextStreamId := wrappingNextStreamId s.nextStreamId }
    if (lookupM s1.m id).isNone then
      (Except.ok id,
        { s1 with
            m := (id, ent) :: s1.m,
            rxs := (id, s1.nextPriority, rx) :: s1.rxs,
            nextPriority := s1.nextPriority + 1 })
    else
      addEntLoop ent rx fuel s1

/-- `StreamMap::add_ent`: add an entry, returning the newly allocated id. -/
def StreamMap.add_ent (s : StreamMap) (sink : Nat) (rx : List Nat)
    (sendWindow : Nat) (cmdChecker : Nat) : Except Error StreamId × StreamMap :=
  addEntLoop (StreamEnt.Open ⟨sink, sendWindow, 0, cmdChecker⟩) rx 65536 s

/-- `StreamMap::add_ent_with_id`: add an entry at a caller-chosen id. -/
def StreamMap.add_ent_with_id (s : StreamMap) (sink : Nat) (rx : List Nat)
    (sendWindow : Nat) (id : StreamId) (cmdChecker : Nat) :
    Except Error Unit × StreamMap :=
  if (lookupM s.m id).isNone then
    (Except.ok (),
      { s with
          m := (id, StreamEnt.Open ⟨sink, sendWindow, 0, cmdChecker⟩) :: s.m,
          rxs := (id, s.nextPriority, rx) :: s.rxs,
          nextPriority := s.nextPriority + 1 })
  else
    (Except.error (Error.IdUnavailable id), s)

/-- `StreamMap::ending_msg_received`: note that an END (or other
stream-terminating message) arrived on stream `id`.  Note that the `Open`
branch replaces the entry with `EndReceived` but does not touch `rxs`. -/
def StreamMap.ending_msg_received (s : StreamMap) (id : StreamId) :
    Except Error Unit × StreamMap :=
  match lookupM s.m id with
  | none =>
    (Except.error (Error.CircProto "Received END cell on nonexistent stream"), s)
  | some StreamEnt.EndReceived =>
    (Except.error (Error.CircProto "Received two END cells on same stream"), s)
  | some (StreamEnt.EndSent _) =>
    (Except.ok (), { s with m := removeM s.m id })
  | some (StreamEnt.Open _) =>
    (Except.ok (), { s with m := replaceM s.m id StreamEnt.EndReceived })

/-- `StreamMap::terminate`: handle a termination of stream `id` from this
side of the circuit.  The source first does `self.m.remove(&id)` and then
matches on the removed value; in the `EndSent` branch the write
`*explicitly_dropped = true` lands in the removed temporary, which is then
dropped, so the net effect there is removal.  In the `Open` branch
`StreamRecvWindow::new(RECV_WINDOW_INIT).decrement_n(dropped)?` can fail
(modelled from the spec, `sendme.rs` not being among the sources under
review: failure iff `dropped` exceeds the initial credit), in which case the
function returns early with the entry already removed. -/
def StreamMap.terminate (s : StreamMap) (id : StreamId) (why : TerminateReason) :
    Except Error ShouldSendEnd × StreamMap :=
  match lookupM s.m id with
  | none =>
    (Except.error (Error.Internal "Somehow we terminated a nonexistent stream?"), s)
  | some ent =>
    let s1 : StreamMap := { s with m := removeM s.m id }
    match ent with
    | StreamEnt.EndReceived => (Except.ok ShouldSendEnd.DontSend, s1)
    | StreamEnt.Open o =>
      if o.dropped ≤ RECV_WINDOW_INIT then
        let halfStream : HalfStream :=
          ⟨o.sendWindow, RECV_WINDOW_INIT - o.dropped, o.cmdChecker⟩
        let explicitlyDropped := why = TerminateReason.StreamTargetClosed
        (Except.ok ShouldSendEnd.Send,
          { s1 with
              m := (id, StreamEnt.EndSent ⟨halfStream, explicitlyDropped⟩) :: s1.m,
              rxs := removeRx s1.rxs id })
      else
        (Except.error (Error.Internal "window underflow"), s1)
    | StreamEnt.EndSent e =>
      match e.explicitlyDropped, why with
      | false, TerminateReason.StreamTargetClosed =>
        (Except.ok ShouldSendEnd.DontSend, s1)
      | true, TerminateReason.StreamTargetClosed =>
        (Except.error (Error.BadApiUsage "Tried to close an already closed stream."), s1)
      | _, TerminateReason.ExplicitEnd =>
        (Except.error (Error.BadApiUsage "Tried to end an already closed stream."), s1)

/-- Modelled from the spec:
`StreamPollSet::take_ready_value_and_reprioritize`
(`util/stream_poll_set.rs` is not among the sources under review) — if the
stream has a buffered outbound message, remove it, set the stream's priority
to `newPriority`, and return the previous priority with the message. -/
def takeReadyValueAndReprioritize (rxs : List (StreamId × Nat × List Nat))
    (sid : StreamId) (newPriority : Nat) :
    Option (Nat × Nat) × List (StreamId × Nat × List Nat) :=
  match rxs with
  | [] => (none, [])
  | (k, p, q) :: rest =>
    if k = sid then
      match q with
      | [] => (none, (k, p, q) :: rest)
      | v :: q' => (some (p, v), (k, newPriority, q') :: rest)
    else
      let r := takeReadyValueAndReprioritize rest sid newPriority
      (r.1, (k, p, q) :: r.2)

/-- `StreamMap::take_ready_msg`: take a pending message from stream `sid`
and send that stream to the back of the queue.  The fresh priority is taken
(`take_next_priority`) before the attempt, so `next_priority` advances even
when nothing is ready. -/
def StreamMap.take_ready_msg (s : StreamMap) (sid : StreamId) :
    Option Nat × StreamMap :=
  let newPriority := s.nextPriority
  let s1 : StreamMap := { s with nextPriority := s.nextPriority + 1 }
  let r := takeReadyValueAndReprioritize s1.rxs sid newPriority
  match r.1 with
  | some pv => (some pv.2, { s1 with rxs := r.2 })
  | none => (none, { s1 with rxs := r.2 })

/-! ## Timeout trackers (`crates/tor-hsservice/src/timeout_track.rs`)

`SystemTime`, `Instant` and `Duration` are modelled as `Nat` (both clock
types are totally ordered and `Duration` is non-negative).  The
`Cell<Option<_>>` of "earliest wakeup" is passed explicitly.
-/

/-- `update_inner` (from the `SingleTimeoutTracker` derive-adhoc template):
replace the earliest-timeout cell by the minimum of its old content and
`maybeEarlier`. -/
def updateInner (earliest : Option Nat) (maybeEarlier : Nat) : Option Nat :=
  some (match earliest with
    | none => maybeEarlier
    | some e => min e maybeEarlier)

/-- Timeout tracker based on `SystemTime` (wall-clock time). -/
structure TrackingSystemTimeNow where
  now : Nat
  earliest : Option Nat
  deriving DecidableEq

/-- `TrackingSystemTimeNow::new`. -/
def TrackingSystemTimeNow.new (now : Nat) : TrackingSystemTimeNow :=
  { now := now, earliest := none }

/-- `TrackingSystemTimeNow::cmp`: record `t` in the earliest-wakeup cell and
return `self.now.cmp(&t)`. -/
def TrackingSystemTimeNow.cmp (tr : TrackingSystemTimeNow) (t : Nat) :
    Ordering × TrackingSystemTimeNow :=
  (compare tr.now t, { tr with earliest := updateInner tr.earliest t })

/-- `Instant::checked_duration_since`: `t - threshold`, or `none` when `t`
is earlier than `threshold`. -/
def checkedDurationSince (t threshold : Nat) : Option Nat :=
  if threshold ≤ t then some (t - threshold) else none

/-- `instant_cmp`: check `t` against a now-based `threshold` (and remember
for wakeup).  Common code for `TrackingInstantNow` and
`TrackingInstantOffsetNow`.  When `t` is before the threshold the cell is
set to `Duration::ZERO` and `Ordering::Less` is returned; otherwise the
distance `d` is recorded and `d.cmp(&Duration::ZERO)` is returned. -/
def instant_cmp (earliest : Option Nat) (threshold t : Nat) :
    Ordering × Option Nat :=
  match checkedDurationSince t threshold with
  | none => (Ordering.lt, some 0)
  | some d => (compare d 0, updateInner earliest d)

/-- Timeout tracker based on `Instant` (monotonic time); its earliest cell
holds a `Duration` from its snapshot `now`. -/
structure TrackingInstantNow where
  now : Nat
  earliest : Option Nat
  deriving DecidableEq

/-- `TrackingInstantNow::new`. -/
def TrackingInstantNow.new (now : Nat) : TrackingInstantNow :=
  { now := now, earliest := none }

/-- `TrackingInstantNow::cmp`, via `instant_cmp` with `self.now` as the
threshold. -/
def TrackingInstantNow.cmp (tr : TrackingInstantNow) (t : Nat) :
    Ordering × TrackingInstantNow :=
  let r := instant_cmp tr.earliest tr.now t
  (r.1, { tr with earliest := r.2 })

/-! ## ed25519 key blinding (`crates/tor-llcrypto/src/pk/keymanip.rs`)

The scalar arithmetic (curve25519-dalek `Scalar`) is arithmetic modulo the
ed25519 group order `L` and is modelled concretely as `ZMod L`.  The Edwards
curve itself is an external library (curve25519-dalek); it enters the
embedding as a bundle `EdwardsModel` of the operations `keymanip.rs` calls
(`CompressedEdwardsY::decompress`, `EdwardsPoint::compress`, scalar
multiplication, and the basepoint used by `PublicKey::from(&secret)`),
together with the two library facts the code relies on: compatibility of
scalar multiplication with scalar products, and compress/decompress
round-tripping. -/

/-- The order `L` of the prime-order subgroup of ed25519
(`2^252 + 27742317777372353535851937790883648493`). -/
def L_ED25519 : Nat := 2 ^ 252 + 27742317777372353535851937790883648493

instance : NeZero L_ED25519 := ⟨by decide⟩

/-- `curve25519_dalek::scalar::clamp_integer`: clear the low 3 bits of the
first byte, clear the top bit and set the second-highest bit of the last
byte (byte 31). -/
def clampInteger (h : List Nat) : List Nat :=
  h.mapIdx (fun i b =>
    if i = 0 then b / 8 * 8
    else if i = 31 then Nat.lor (b % 128) 64
    else b)

/-- `Scalar::from_bytes_mod_order`: little-endian value reduced mod `L`. -/
def fromBytesModOrder (l : List Nat) : ZMod L_ED25519 :=
  ((leVal l : Nat) : ZMod L_ED25519)

/-- `clamp_blinding_factor`: clamp a 32-byte blinding input and turn it into
a scalar. -/
def clamp_blinding_factor (h : List Nat) : ZMod L_ED25519 :=
  fromBytesModOrder (clampInteger h)

/-- An error occurred during a key-blinding operation. -/
inductive BlindingError where
  | BadPubkey
  | BlindingFailed
  deriving DecidableEq

/-- The curve25519-dalek operations used by the blinding code, bundled with
the two algebraic facts about them that the code relies on. -/
structure EdwardsModel where
  Point : Type
  decompress : List Nat → Option Point
  compress : Point → List Nat
  smul : ZMod L_ED25519 → Point → Point
  basepoint : Point
  mul_smul : ∀ (a b : ZMod L_ED25519) (P : Point), smul (a * b) P = smul a (smul b P)
  decompress_compress : ∀ P : Point, decompress (compress P) = some P

/-- `ed25519_dalek::hazmat::ExpandedSecretKey`: a scalar and a 32-byte hash
prefix (the `hash_prefix` field, here `hashPref`). -/
structure ExpandedSecretKeyM where
  scalar : ZMod L_ED25519
  hashPref : List Nat

/-- `ExpandedKeypair`: an expanded secret key and its (compressed) public
key bytes. -/
structure ExpandedKeypairM where
  secret : ExpandedSecretKeyM
  public : List Nat

/-- Fixed string specified in rend-spec-v3, used for blinding the original
nonce: the bytes of `"Derive temporary signing key hash input"`. -/
def RH_BLIND_STRING : List Nat :=
  "Derive temporary signing key hash input".toList.map Char.toNat

/-- `blind_pubkey`: clamp `h` to a scalar, decompress `pk`, multiply, and
recompress.  The final `PublicKey::from_bytes` re-validates the compressed
bytes (failure becomes `BlindingFailed` via the `From<SignatureError>`
conversion). -/
def blind_pubkey (M : EdwardsModel) (pk : List Nat) (h : List Nat) :
    Except BlindingError (List Nat) :=
  let blindingFactor := clamp_blinding_factor h
  match M.decompress pk with
  | none => Except.error BlindingError.BadPubkey
  | some pubkeyPoint =>
    let blinded := M.compress (M.smul blindingFactor pubkeyPoint)
    match M.decompress blinded with
    | some _ => Except.ok blinded
    | none => Except.error BlindingError.BlindingFailed

/-- `blind_keypair`: blind the secret scalar by multiplication, derive the
blinded hash prefix from SHA-512 of `RH_BLIND_STRING ‖ hash_prefix`, and
derive the new public key from the new expanded secret
(`PublicKey::from(&secret)`, i.e. compress of scalar times basepoint).
SHA-512 is an external primitive and is passed in as a function. -/
def blind_keypair (M : EdwardsModel) (sha512 : List Nat → List Nat)
    (kp : ExpandedKeypairM) (h : List Nat) : ExpandedKeypairM :=
  let blindingFactor := clamp_blinding_factor h
  let blindedSecretScalar := kp.secret.scalar * blindingFactor
  let blindedSecretHashPref := (sha512 (RH_BLIND_STRING ++ kp.secret.hashPref)).take 32
  let secret : ExpandedSecretKeyM := ⟨blindedSecretScalar, blindedSecretHashPref⟩
  let public := M.compress (M.smul secret.scalar M.basepoint)
  ⟨secret, public⟩

/-- The cyclic group of order `L`, an instance of `EdwardsModel` (isomorphic
to the prime-order subgroup the real library computes in); used to witness
satisfiability of the model hypotheses. -/
def cyclicEdwards : EdwardsModel where
  Point := ZMod L_ED25519
  decompress := fun l =>
    match l with
    | [n] => if n < L_ED25519 then some ((n : Nat) : ZMod L_ED25519) else none
    | _ => none
  compress := fun P => [P.val]
  smul := fun a P => a * P
  basepoint := 1
  mul_smul := fun a b P => mul_assoc a b P
  decompress_compress := fun P => by
    have hlt : P.val < L_ED25519 := ZMod.val_lt P
    simp only [hlt, if_pos]
    rw [ZMod.natCast_val, ZMod.cast_id]

/-- A concrete well-formed expanded keypair over `cyclicEdwards`. -/
def toyKeypair : ExpandedKeypairM :=
  { secret := { scalar := 2, hashPref := [] }
    public := cyclicEdwards.compress (cyclicEdwards.smul 2 cyclicEdwards.basepoint) }

/-! ## Concrete states used to exhibit divergences -/

/-- The stream map reached from `new` (initial id 1) by one `add_ent`. -/
def exampleAfterAdd : StreamMap :=
  ((StreamMap.new 1).add_ent 0 [] 500 0).2

/-- `exampleAfterAdd` after `ending_msg_received` on its only stream. -/
def exampleAfterEnd : StreamMap :=
  (exampleAfterAdd.ending_msg_received 1).2

/-- A stream map whose single entry is `EndSent` with
`explicitly_dropped = false` (the state reached by terminating an open
stream with `ExplicitEnd`). -/
def exampleEndSent : StreamMap :=
  { m := [(1, StreamEnt.EndSent ⟨⟨500, 500, 7⟩, false⟩)]
    rxs := []
    nextStreamId := 5
    nextPriority := 3 }

/-! # Theorems -/

/-! ## Arithmetic of the byte encodings -/

theorem leEnc_length (len n : Nat) : (leEnc len n).length = len := by
  induction len generalizing n with
  | zero => rfl
  | succ k ih => simp [leEnc, ih]

theorem leEnc_wf (len n : Nat) : BytesWF (leEnc len n) := by
  induction len generalizing n with
  | zero => intro b hb; simp [leEnc] at hb
  | succ k ih =>
    intro b hb
    simp only [leEnc, List.mem_cons] at hb
    rcases hb with h | h
    · subst h; omega
    · exact ih _ _ h

theorem leVal_lt (l : List Nat) (h : BytesWF l) : leVal l < 256 ^ l.length := by
  induction l with
  | nil => simp [leVal]
  | cons b rest ih =>
    have hb : b < 256 := h b (List.mem_cons_self _ _)
    have hr : leVal rest < 256 ^ rest.length :=
      ih (fun x hx => h x (List.mem_cons_of_mem _ hx))
    simp only [leVal, List.length_cons, pow_succ]
    calc b + 256 * leVal rest < 256 + 256 * leVal rest := by omega
      _ = 256 * (leVal rest + 1) := by ring
      _ ≤ 256 * 256 ^ rest.length := by
          exact Nat.mul_le_mul_left _ (by omega)
      _ = 256 ^ rest.length * 256 := by ring

theorem leEnc_leVal (l : List Nat) (h : BytesWF l) : leEnc l.length (leVal l) = l := by
  induction l with
  | nil => rfl
  | cons b rest ih =>
    have hb : b < 256 := h b (List.mem_cons_self _ _)
    have hr : BytesWF rest := fun x hx => h x (List.mem_cons_of_mem _ hx)
    simp only [List.length_cons, leEnc, leVal]
    have h1 : (b + 256 * leVal rest) % 256 = b := by omega
    have h2 : (b + 256 * leVal rest) / 256 = leVal rest := by omega
    rw [h1, h2, ih hr]

theorem leVal_leEnc (len n : Nat) : leVal (leEnc len n) = n % 256 ^ len := by
  induction len generalizing n with
  | zero => simp [leEnc, leVal, Nat.mod_one]
  | succ k ih =>
    simp only [leEnc, leVal, ih]
    rw [pow_succ, mul_comm (256 ^ k) 256, Nat.mod_mul]

theorem beVal_toBeBytes4 (e : Nat) (he : e < 2 ^ 32) : beVal (toBeBytes4 e) = e := by
  simp only [toBeBytes4, beVal, List.foldl]
  omega

theorem beVal_lt_u32 (l : List Nat) (hlen : l.length = 4) (hwf : BytesWF l) :
    beVal l < 2 ^ 32 := by
  match l, hlen with
  | [a, b, c, d], _ =>
    have ha : a < 256 := hwf a (by simp)
    have hb : b < 256 := hwf b (by simp)
    have hc : c < 256 := hwf c (by simp)
    have hd : d < 256 := hwf d (by simp)
    simp only [beVal, List.foldl]
    omega

theorem incLeBytes_length (l : List Nat) : (incLeBytes l).length = l.length := by
  induction l with
  | nil => rfl
  | cons b rest ih =>
    by_cases hb : b < 255 <;> simp [incLeBytes, hb, ih]

theorem incLeBytes_eq_leEnc (l : List Nat) (h : BytesWF l) :
    incLeBytes l = leEnc l.length ((leVal l + 1) % 256 ^ l.length) := by
  induction l with
  | nil => rfl
  | cons b rest ih =>
    have hb : b < 256 := h b (List.mem_cons_self _ _)
    have hr : BytesWF rest := fun x hx => h x (List.mem_cons_of_mem _ hx)
    have hrv : leVal rest < 256 ^ rest.length := leVal_lt rest hr
    simp only [incLeBytes, leVal, List.length_cons]
    by_cases hlt : b < 255
    · -- no carry: b + 1 + 256 * leVal rest is below 256 ^ (len + 1)
      have hmod : (b + 256 * leVal rest + 1) % 256 ^ (rest.length + 1) =
          b + 256 * leVal rest + 1 := by
        apply Nat.mod_eq_of_lt
        have : b + 256 * leVal rest + 1 < 256 * (leVal rest + 1) := by omega
        calc b + 256 * leVal rest + 1 < 256 * (leVal rest + 1) := this
          _ ≤ 256 * 256 ^ rest.length := Nat.mul_le_mul_left _ (by omega)
          _ = 256 ^ (rest.length + 1) := by rw [pow_succ, mul_comm]
      simp only [hlt, if_true, hmod, leEnc]
      have h1 : (b + 256 * leVal rest + 1) % 256 = b + 1 := by omega
      have h2 : (b + 256 * leVal rest + 1) / 256 = leVal rest := by omega
      rw [h1, h2, leEnc_leVal rest hr]
    · -- carry: b = 255, the first byte wraps to 0
      have hb255 : b = 255 := by omega
      subst hb255
      simp only [hlt, if_false, leEnc]
      have h255 : (255 + 256 * leVal rest + 1) = 256 * (leVal rest + 1) := by ring
      have hp : 256 ^ (rest.length + 1) = 256 * 256 ^ rest.length := by
        rw [pow_succ, mul_comm]
      have h1 : 256 * (leVal rest + 1) % (256 * 256 ^ rest.length) =
          256 * ((leVal rest + 1) % 256 ^ rest.length) := Nat.mul_mod_mul_left _ _ _
      rw [h255, hp, h1]
      have h2 : 256 * ((leVal rest + 1) % 256 ^ rest.length) % 256 = 0 := by
        simp [Nat.mul_mod_right]
      have h3 : 256 * ((leVal rest + 1) % 256 ^ rest.length) / 256 =
          (leVal rest + 1) % 256 ^ rest.length := by
        rw [Nat.mul_div_cancel_left _ (by norm_num)]
      rw [h2, h3, ih hr]

/-! ## Slicing lemmas for 100-byte challenges -/

theorem take80_append (A X : List Nat) (hA : A.length = 80) :
    (A ++ X).take 80 = A := List.take_left' hA

theorem drop80_append (A X : List Nat) (hA : A.length = 80) :
    (A ++ X).drop 80 = X := List.drop_left' hA

theorem drop96_append (A B C : List Nat) (hA : A.length = 80) (hB : B.length = 16) :
    (A ++ (B ++ C)).drop 96 = C := by
  have h16 : ((A ++ (B ++ C)).drop 80).drop 16 = (A ++ (B ++ C)).drop 96 := by
    rw [List.drop_drop]
  rw [← h16, drop80_append _ _ hA, List.drop_left' hB]

theorem nonce_of_assembled (A B C : List Nat) (hA : A.length = 80) (hB : B.length = 16) :
    Challenge.nonce (A ++ (B ++ C)) = B := by
  simp only [Challenge.nonce, NONCE_OFFSET, SEED_OFFSET, P_STRING_LEN, ID_LEN, SEED_LEN,
    NONCE_LEN]
  rw [drop80_append _ _ hA, List.take_left' hB]

/-- A 100-byte challenge is its prefix, its nonce region, and its suffix. -/
theorem challenge_decompose (ch : List Nat) :
    ch = ch.take 80 ++ (Challenge.nonce ch ++ ch.drop 96) := by
  have h1 : ch = ch.take 80 ++ ch.drop 80 := (List.take_append_drop 80 ch).symm
  have h2 : ch.drop 80 = (ch.drop 80).take 16 ++ (ch.drop 80).drop 16 :=
    (List.take_append_drop 16 (ch.drop 80)).symm
  have h3 : (ch.drop 80).drop 16 = ch.drop 96 := by rw [List.drop_drop]
  calc ch = ch.take 80 ++ ch.drop 80 := h1
    _ = ch.take 80 ++ ((ch.drop 80).take 16 ++ (ch.drop 80).drop 16) := by rw [← h2]
    _ = ch.take 80 ++ (Challenge.nonce ch ++ ch.drop 96) := by
        rw [h3]; rfl

theorem take80_length (ch : List Nat) (hlen : ch.length = 100) :
    (ch.take 80).length = 80 := by
  simp [List.length_take, hlen]

theorem nonce_length (ch : List Nat) (hlen : ch.length = 100) :
    (Challenge.nonce ch).length = 16 := by
  simp [Challenge.nonce, NONCE_OFFSET, SEED_OFFSET, P_STRING_LEN, ID_LEN, SEED_LEN, NONCE_LEN,
    List.length_take, List.length_drop, hlen]

theorem nonce_wf (ch : List Nat) (hwf : BytesWF ch) : BytesWF (Challenge.nonce ch) := by
  intro b hb
  exact hwf b (List.mem_of_mem_drop (List.mem_of_mem_take hb))

/-- Unfolding `Challenge.incrementNonce` on a decomposed challenge. -/
theorem incrementNonce_assembled (A B C : List Nat) (hA : A.length = 80)
    (hB : B.length = 16) :
    Challenge.incrementNonce (A ++ (B ++ C)) = A ++ (incLeBytes B ++ C) := by
  simp only [Challenge.incrementNonce, NONCE_OFFSET, SEED_OFFSET, P_STRING_LEN, ID_LEN,
    SEED_LEN, NONCE_LEN]
  rw [take80_append _ _ hA, drop80_append _ _ hA, List.take_left' hB,
    drop96_append _ _ _ hA hB, List.append_assoc]

/-- Iterating the nonce increment `k` times adds `k` to the little-endian
value of the nonce region, modulo `2 ^ 128`, and touches nothing else. -/
theorem incrementNonce_iterate (ch : List Nat) (hlen : ch.length = 100)
    (hwf : BytesWF ch) (k : Nat) :
    Challenge.incrementNonce^[k] ch =
      ch.take 80 ++ (leEnc 16 ((leVal (Challenge.nonce ch) + k) % 256 ^ 16) ++ ch.drop 96) := by
  induction k with
  | zero =>
    have hn : leVal (Challenge.nonce ch) < 256 ^ 16 := by
      have := leVal_lt (Challenge.nonce ch) (nonce_wf ch hwf)
      rwa [nonce_length ch hlen] at this
    rw [Function.iterate_zero_apply, Nat.add_zero, Nat.mod_eq_of_lt hn]
    have := leEnc_leVal (Challenge.nonce ch) (nonce_wf ch hwf)
    rw [nonce_length ch hlen] at this
    rw [this]
    exact challenge_decompose ch
  | succ k ih =>
    rw [Function.iterate_succ_apply', ih]
    have hA : (ch.take 80).length = 80 := take80_length ch hlen
    have hB : (leEnc 16 ((leVal (Challenge.nonce ch) + k) % 256 ^ 16)).length = 16 :=
      leEnc_length _ _
    rw [incrementNonce_assembled _ _ _ hA hB]
    have hwfB : BytesWF (leEnc 16 ((leVal (Challenge.nonce ch) + k) % 256 ^ 16)) :=
      leEnc_wf _ _
    rw [incLeBytes_eq_leEnc _ hwfB, hB, leVal_leEnc, Nat.mod_mod_of_dvd _ dvd_rfl,
      Nat.mod_add_mod, Nat.add_assoc]

/-! ## Challenge layout and accessors -/

theorem challenge_new_grouped (service seed nonce : List Nat) (effort : Nat) :
    Challenge.new service seed nonce effort =
      (P_STRING ++ service) ++ (seed ++ (nonce ++ toBeBytes4 effort)) := by
  simp [Challenge.new, List.append_assoc]

theorem Challenge.seed_new (service seed nonce : List Nat) (effort : Nat)
    (hs : service.length = 32) (hc : seed.length = 32) :
    Challenge.seed (Challenge.new service seed nonce effort) = seed := by
  have h48 : (P_STRING ++ service).length = 48 := by simp [P_STRING, hs]
  rw [Challenge.seed, challenge_new_grouped]
  show ((P_STRING ++ service ++ (seed ++ (nonce ++ toBeBytes4 effort))).drop 48).take 32 = seed
  rw [List.drop_left' h48, List.take_left' hc]

theorem Challenge.nonce_new (service seed nonce : List Nat) (effort : Nat)
    (hs : service.length = 32) (hc : seed.length = 32) (hn : nonce.length = 16) :
    Challenge.nonce (Challenge.new service seed nonce effort) = nonce := by
  have h80 : ((P_STRING ++ service) ++ seed).length = 80 := by simp [P_STRING, hs, hc]
  have e1 : Challenge.new service seed nonce effort =
      ((P_STRING ++ service) ++ seed) ++ (nonce ++ toBeBytes4 effort) := by
    simp [Challenge.new, List.append_assoc]
  rw [Challenge.nonce, e1]
  show ((((P_STRING ++ service) ++ seed) ++ (nonce ++ toBeBytes4 effort)).drop 80).take 16
      = nonce
  rw [List.drop_left' h80, List.take_left' hn]

theorem Challenge.effort_new (service seed nonce : List Nat) (effort : Nat)
    (hs : service.length = 32) (hc : seed.length = 32) (hn : nonce.length = 16)
    (he : effort < 2 ^ 32) :
    Challenge.effort (Challenge.new service seed nonce effort) = effort := by
  have h96 : (((P_STRING ++ service) ++ seed) ++ nonce).length = 96 := by
    simp [P_STRING, hs, hc, hn]
  have e1 : Challenge.new service seed nonce effort =
      (((P_STRING ++ service) ++ seed) ++ nonce) ++ toBeBytes4 effort := by
    simp [Challenge.new, List.append_assoc]
  rw [Challenge.effort, e1]
  show beVal (((((P_STRING ++ service) ++ seed) ++ nonce) ++ toBeBytes4 effort).drop 96
      |>.take 4) = effort
  rw [List.drop_left' h96]
  have : (toBeBytes4 effort).take 4 = toBeBytes4 effort := by
    simp [toBeBytes4]
  rw [this, beVal_toBeBytes4 _ he]

/-- Claim C4 (corrected): the challenge assembled by `Challenge::new` is
100 bytes, not 56: already at the all-zero input the packed string has
length 100. -/
theorem challenge_len_counterexample :
    (Challenge.new (List.replicate 32 0) (List.replicate 32 0)
      (List.replicate 16 0) 0).length = 100 ∧
    ¬ (Challenge.new (List.replicate 32 0) (List.replicate 32 0)
      (List.replicate 16 0) 0).length = 56 := by
  decide

/-- Claim C4 (amended): `Challenge::new` assembles a packed challenge of
exactly 100 bytes, laid out as personalization string (16 bytes, the fixed
literal `"Tor hs intro v1\0"`) ‖ service identity (32) ‖ seed (32) ‖
nonce (16) ‖ effort as big-endian u32 (4), and the `seed()`, `nonce()`,
`effort()` accessors copy back exactly the fields that were put in. -/
theorem challenge_new_layout (service seed nonce : List Nat) (effort : Nat)
    (hs : service.length = 32) (hc : seed.length = 32) (hn : nonce.length = 16)
    (he : effort < 2 ^ 32) :
    (Challenge.new service seed nonce effort).length = 100 ∧
    Challenge.new service seed nonce effort =
      P_STRING ++ service ++ seed ++ nonce ++ toBeBytes4 effort ∧
    P_STRING.length = 16 ∧
    P_STRING = "Tor hs intro v1".toList.map Char.toNat ++ [0] ∧
    (toBeBytes4 effort).length = 4 ∧
    Challenge.seed (Challenge.new service seed nonce effort) = seed ∧
    Challenge.nonce (Challenge.new service seed nonce effort) = nonce ∧
    Challenge.effort (Challenge.new service seed nonce effort) = effort := by
  refine ⟨?_, rfl, rfl, by decide, rfl,
    Challenge.seed_new _ _ _ _ hs hc,
    Challenge.nonce_new _ _ _ _ hs hc hn,
    Challenge.effort_new _ _ _ _ hs hc hn he⟩
  simp [Challenge.new, toBeBytes4, P_STRING, List.length_append, hs, hc, hn]

/-- Witness for `challenge_new_layout` at a concrete input. -/
theorem challenge_new_layout_witness :
    (List.replicate 32 (1 : Nat)).length = 32 ∧
    (List.replicate 32 (2 : Nat)).length = 32 ∧
    (List.replicate 16 (3 : Nat)).length = 16 ∧
    (7 : Nat) < 2 ^ 32 ∧
    ((Challenge.new (List.replicate 32 1) (List.replicate 32 2)
        (List.replicate 16 3) 7).length = 100 ∧
      Challenge.new (List.replicate 32 1) (List.replicate 32 2)
          (List.replicate 16 3) 7 =
        P_STRING ++ List.replicate 32 1 ++ List.replicate 32 2 ++
          List.replicate 16 3 ++ toBeBytes4 7 ∧
      P_STRING.length = 16 ∧
      P_STRING = "Tor hs intro v1".toList.map Char.toNat ++ [0] ∧
      (toBeBytes4 7).length = 4 ∧
      Challenge.seed (Challenge.new (List.replicate 32 1) (List.replicate 32 2)
          (List.replicate 16 3) 7) = List.replicate 32 2 ∧
      Challenge.nonce (Challenge.new (List.replicate 32 1) (List.replicate 32 2)
          (List.replicate 16 3) 7) = List.replicate 16 3 ∧
      Challenge.effort (Challenge.new (List.replicate 32 1) (List.replicate 32 2)
          (List.replicate 16 3) 7) = 7) :=
  ⟨by decide, by decide, by decide, by decide,
    challenge_new_layout _ _ _ _ (by decide) (by decide) (by decide) (by decide)⟩

/-! ## Effort check -/

/-- Claim C6: for every challenge and serialized Equi-X solution,
`check_effort` returns `Ok` iff the Blake2b-32 digest of
challenge ‖ solution, read as a big-endian u32, times the challenge's
effort does not overflow a u32; in particular at effort 1 every solution
passes. -/
theorem check_effort_spec (blake2b : List Nat → List Nat) (ch sol : List Nat)
    (hlen : (blake2b (ch ++ sol)).length = 4)
    (hwf : BytesWF (blake2b (ch ++ sol))) :
    (Challenge.checkEffort blake2b ch sol = Except.ok () ↔
      beVal (blake2b (ch ++ sol)) * Challenge.effort ch < 2 ^ 32) ∧
    (Challenge.effort ch = 1 → Challenge.checkEffort blake2b ch sol = Except.ok ()) := by
  constructor
  · unfold Challenge.checkEffort checkedMulU32
    dsimp only
    split_ifs with h
    · exact iff_of_true rfl h
    · exact iff_of_false (by simp) h
  · intro h1
    have hv := beVal_lt_u32 _ hlen hwf
    unfold Challenge.checkEffort checkedMulU32
    dsimp only
    rw [h1, Nat.mul_one, if_pos hv]

/-- Witness for `check_effort_spec` at a concrete input. -/
theorem check_effort_spec_witness :
    ((fun _ : List Nat => [0, 0, 0, 1]) (List.replicate 100 (0 : Nat) ++ [5])).length = 4 ∧
    BytesWF ((fun _ : List Nat => [0, 0, 0, 1]) (List.replicate 100 (0 : Nat) ++ [5])) ∧
    ((Challenge.checkEffort (fun _ => [0, 0, 0, 1]) (List.replicate 100 0) [5] =
        Except.ok () ↔
      beVal ((fun _ : List Nat => [0, 0, 0, 1]) (List.replicate 100 (0 : Nat) ++ [5])) *
        Challenge.effort (List.replicate 100 0) < 2 ^ 32) ∧
      (Challenge.effort (List.replicate 100 (0 : Nat)) = 1 →
        Challenge.checkEffort (fun _ => [0, 0, 0, 1]) (List.replicate 100 0) [5] =
          Except.ok ())) :=
  ⟨by decide, by decide,
    check_effort_spec (fun _ => [0, 0, 0, 1]) (List.replicate 100 0) [5]
      (by decide) (by decide)⟩

/-- Claim C10: a zero-effort challenge accepts every solution: the
multiplication value × 0 never overflows, so `check_effort` returns `Ok`
regardless of the hash value. -/
theorem check_effort_zero_effort (blake2b : List Nat → List Nat) (ch sol : List Nat)
    (h0 : Challenge.effort ch = 0) :
    Challenge.checkEffort blake2b ch sol = Except.ok () := by
  unfold Challenge.checkEffort checkedMulU32
  rw [h0]
  simp

/-- Witness for `check_effort_zero_effort` at a concrete input. -/
theorem check_effort_zero_effort_witness :
    Challenge.effort (Challenge.new (List.replicate 32 0) (List.replicate 32 0)
        (List.replicate 16 0) 0) = 0 ∧
    Challenge.checkEffort (fun _ => [255, 255, 255, 255])
        (Challenge.new (List.replicate 32 0) (List.replicate 32 0)
          (List.replicate 16 0) 0) [1, 2, 3] = Except.ok () :=
  ⟨by decide,
    check_effort_zero_effort (fun _ => [255, 255, 255, 255]) _ [1, 2, 3] (by decide)⟩

/-! ## Nonce increment -/

/-- Claim C8: `increment_nonce` adds 1 with carry, byte by byte
little-endian, to the 16-byte nonce region (bytes 80..96), wrapping at the
end of that region; it changes no byte outside the region; and iterating it
`2 ^ 128` times returns the challenge to its original value. -/
theorem increment_nonce_spec (ch : List Nat) (hlen : ch.length = 100)
    (hwf : BytesWF ch) :
    ((Challenge.incrementNonce ch).take 80 = ch.take 80) ∧
    ((Challenge.incrementNonce ch).drop 96 = ch.drop 96) ∧
    (leVal (Challenge.nonce (Challenge.incrementNonce ch)) =
      (leVal (Challenge.nonce ch) + 1) % 2 ^ 128) ∧
    (Challenge.incrementNonce^[2 ^ 128] ch = ch) := by
  have h256 : (256 : Nat) ^ 16 = 2 ^ 128 := by norm_num
  have hA : (ch.take 80).length = 80 := take80_length ch hlen
  have hone : Challenge.incrementNonce ch =
      ch.take 80 ++ (leEnc 16 ((leVal (Challenge.nonce ch) + 1) % 256 ^ 16) ++ ch.drop 96) := by
    have := incrementNonce_iterate ch hlen hwf 1
    rwa [Function.iterate_one] at this
  have hB : (leEnc 16 ((leVal (Challenge.nonce ch) + 1) % 256 ^ 16)).length = 16 :=
    leEnc_length _ _
  refine ⟨?_, ?_, ?_, ?_⟩
  · rw [hone, take80_append _ _ hA]
  · rw [hone, drop96_append _ _ _ hA hB]
  · rw [hone, nonce_of_assembled _ _ _ hA hB, leVal_leEnc, Nat.mod_mod_of_dvd _ dvd_rfl,
      h256]
  · have hn : leVal (Challenge.nonce ch) < 256 ^ 16 := by
      have := leVal_lt (Challenge.nonce ch) (nonce_wf ch hwf)
      rwa [nonce_length ch hlen] at this
    have hiter := incrementNonce_iterate ch hlen hwf (2 ^ 128)
    rw [h256] at hiter
    rw [hiter, Nat.add_mod_right, Nat.mod_eq_of_lt (h256 ▸ hn)]
    have hroundtrip := leEnc_leVal (Challenge.nonce ch) (nonce_wf ch hwf)
    rw [nonce_length ch hlen] at hroundtrip
    rw [hroundtrip]
    exact (challenge_decompose ch).symm

/-- Witness for `increment_nonce_spec` at a concrete input. -/
theorem increment_nonce_spec_witness :
    (List.replicate 100 (0 : Nat)).length = 100 ∧
    BytesWF (List.replicate 100 (0 : Nat)) ∧
    (((Challenge.incrementNonce (List.replicate 100 0)).take 80 =
        (List.replicate 100 (0 : Nat)).take 80) ∧
      ((Challenge.incrementNonce (List.replicate 100 0)).drop 96 =
        (List.replicate 100 (0 : Nat)).drop 96) ∧
      (leVal (Challenge.nonce (Challenge.incrementNonce (List.replicate 100 0))) =
        (leVal (Challenge.nonce (List.replicate 100 (0 : Nat))) + 1) % 2 ^ 128) ∧
      (Challenge.incrementNonce^[2 ^ 128] (List.replicate 100 (0 : Nat)) =
        List.replicate 100 0)) :=
  ⟨by decide, by decide,
    increment_nonce_spec (List.replicate 100 0) (by decide) (by decide)⟩

/-! ## Association-list lemmas for the stream map -/

theorem lookupM_removeM_self (m : List (StreamId × StreamEnt)) (id : StreamId) :
    lookupM (removeM m id) id = none := by
  induction m with
  | nil => rfl
  | cons p rest ih =>
    obtain ⟨k, v⟩ := p
    by_cases hk : k = id
    · subst hk
      simpa [removeM, List.filter_cons] using ih
    · have hne : (k != id) = true := by simp [hk]
      simp only [removeM, List.filter_cons, hne, if_true]
      show lookupM ((k, v) :: removeM rest id) id = none
      simp only [lookupM, if_neg hk]
      exact ih

theorem lookupM_removeM_ne (m : List (StreamId × StreamEnt)) (id id2 : StreamId)
    (h : id2 ≠ id) : lookupM (removeM m id) id2 = lookupM m id2 := by
  induction m with
  | nil => rfl
  | cons p rest ih =>
    obtain ⟨k, v⟩ := p
    by_cases hk : k = id
    · subst hk
      have hne : ¬ k = id2 := fun hc => h hc.symm
      simp only [removeM, List.filter_cons, bne_self_eq_false, if_false, lookupM,
        if_neg hne]
      exact ih
    · have hne : (k != id) = true := by simp [hk]
      simp only [removeM, List.filter_cons, hne, if_true]
      show lookupM ((k, v) :: removeM rest id) id2 = lookupM ((k, v) :: rest) id2
      by_cases hk2 : k = id2
      · simp only [lookupM, if_pos hk2]
      · simp only [lookupM, if_neg hk2]
        exact ih

theorem lookupM_replaceM_self (m : List (StreamId × StreamEnt)) (id : StreamId)
    (v w : StreamEnt) (h : lookupM m id = some w) :
    lookupM (replaceM m id v) id = some v := by
  induction m with
  | nil => simp [lookupM] at h
  | cons p rest ih =>
    obtain ⟨k, u⟩ := p
    by_cases hk : k = id
    · subst hk
      show lookupM ((if k = k then (k, v) else (k, u)) :: replaceM rest k v) k = some v
      rw [if_pos rfl]
      simp [lookupM]
    · simp only [lookupM, if_neg hk] at h
      show lookupM ((if k = id then (id, v) else (k, u)) :: replaceM rest id v) id = some v
      rw [if_neg hk]
      simp only [lookupM, if_neg hk]
      exact ih h

theorem lookupM_replaceM_ne (m : List (StreamId × StreamEnt)) (id id2 : StreamId)
    (v : StreamEnt) (h : id2 ≠ id) :
    lookupM (replaceM m id v) id2 = lookupM m id2 := by
  induction m with
  | nil => rfl
  | cons p rest ih =>
    obtain ⟨k, u⟩ := p
    show lookupM ((if k = id then (id, v) else (k, u)) :: replaceM rest id v) id2 =
      lookupM ((k, u) :: rest) id2
    by_cases hk : k = id
    · subst hk
      have hne : ¬ k = id2 := fun hc => h hc.symm
      rw [if_pos rfl]
      simp only [lookupM, if_neg hne, if_neg (fun hc => h hc.symm : ¬ k = id2)]
      exact ih
    · rw [if_neg hk]
      by_cases hk2 : k = id2
      · simp only [lookupM, if_pos hk2]
      · simp only [lookupM, if_neg hk2]
        exact ih

/-- Claim C5: `ending_msg_received(id)` transitions the entry for `id` and
nothing else.  An `Open` entry becomes `EndReceived` with `Ok`; an `EndSent`
entry is removed from the map with `Ok`; an `EndReceived` entry yields the
two-ENDs `CircuitProtocolViolation` with the entry retained; an absent entry
yields the nonexistent-stream `CircuitProtocolViolation`.  Entries of other
streams, the scheduling structure, and the id/priority counters are
untouched. -/
theorem ending_msg_received_spec (s : StreamMap) (id : StreamId) :
    (match lookupM s.m id with
     | none =>
       s.ending_msg_received id =
         (Except.error (Error.CircProto "Received END cell on nonexistent stream"), s)
     | some (StreamEnt.Open o) =>
       s.ending_msg_received id =
         (Except.ok (), { s with m := replaceM s.m id StreamEnt.EndReceived }) ∧
       lookupM (s.ending_msg_received id).2.m id = some StreamEnt.EndReceived
     | some StreamEnt.EndReceived =>
       s.ending_msg_received id =
         (Except.error (Error.CircProto "Received two END cells on same stream"), s)
     | some (StreamEnt.EndSent e) =>
       s.ending_msg_received id = (Except.ok (), { s with m := removeM s.m id }) ∧
       lookupM (s.ending_msg_received id).2.m id = none) ∧
    (∀ id2, id2 ≠ id →
      lookupM (s.ending_msg_received id).2.m id2 = lookupM s.m id2) ∧
    (s.ending_msg_received id).2.rxs = s.rxs ∧
    (s.ending_msg_received id).2.nextStreamId = s.nextStreamId ∧
    (s.ending_msg_received id).2.nextPriority = s.nextPriority := by
  rcases hm : lookupM s.m id with _ | ent
  · have he : s.ending_msg_received id =
        (Except.error (Error.CircProto "Received END cell on nonexistent stream"), s) := by
      unfold StreamMap.ending_msg_received
      rw [hm]
    refine ⟨?_, ?_, ?_, ?_, ?_⟩
    · exact he
    · intro id2 _
      rw [he]
    · rw [he]
    · rw [he]
    · rw [he]
  · cases ent with
    | Open o =>
      have he : s.ending_msg_received id =
          (Except.ok (), { s with m := replaceM s.m id StreamEnt.EndReceived }) := by
        unfold StreamMap.ending_msg_received
        rw [hm]
      refine ⟨?_, ?_, ?_, ?_, ?_⟩
      · refine ⟨he, ?_⟩
        rw [he]
        exact lookupM_replaceM_self _ _ _ _ hm
      · intro id2 h2
        rw [he]
        exact lookupM_replaceM_ne _ _ _ _ h2
      · rw [he]
      · rw [he]
      · rw [he]
    | EndReceived =>
      have he : s.ending_msg_received id =
          (Except.error (Error.CircProto "Received two END cells on same stream"), s) := by
        unfold StreamMap.ending_msg_received
        rw [hm]
      refine ⟨?_, ?_, ?_, ?_, ?_⟩
      · exact he
      · intro id2 _
        rw [he]
      · rw [he]
      · rw [he]
      · rw [he]
    | EndSent e =>
      have he : s.ending_msg_received id =
          (Except.ok (), { s with m := removeM s.m id }) := by
        unfold StreamMap.ending_msg_received
        rw [hm]
      refine ⟨?_, ?_, ?_, ?_, ?_⟩
      · refine ⟨he, ?_⟩
        rw [he]
        exact lookupM_removeM_self _ _
      · intro id2 h2
        rw [he]
        exact lookupM_removeM_ne _ _ _ h2
      · rw [he]
      · rw [he]
      · rw [he]

/-! ## `add_ent` (claim C9) -/

theorem wrappingNextStreamId_bounds (x : Nat) (h1 : 1 ≤ x) (h2 : x ≤ 0xFFFF) :
    1 ≤ wrappingNextStreamId x ∧ wrappingNextStreamId x ≤ 0xFFFF := by
  unfold wrappingNextStreamId
  by_cases h : x + 1 ≤ 0xFFFF
  · rw [if_pos h]
    exact ⟨Nat.le_add_left 1 x, h⟩
  · rw [if_neg h]
    exact ⟨Nat.le_refl 1, by norm_num⟩

theorem wrappingNextStreamId_iterate_bounds (x : Nat) (h1 : 1 ≤ x)
    (h2 : x ≤ 0xFFFF) (i : Nat) :
    1 ≤ wrappingNextStreamId^[i] x ∧ wrappingNextStreamId^[i] x ≤ 0xFFFF := by
  induction i with
  | zero => exact ⟨h1, h2⟩
  | succ k ih =>
    rw [Function.iterate_succ_apply']
    exact wrappingNextStreamId_bounds _ ih.1 ih.2

/-- The probe sequence examined by `add_ent` starting from state `s`:
`next_stream_id`, then its successive `wrapping_next_stream_id` images. -/
def probeIds (s : StreamMap) (n : Nat) : List StreamId :=
  (List.range n).map (fun i => wrappingNextStreamId^[i] s.nextStreamId)

theorem probeIds_succ (s : StreamMap) (k : Nat) :
    probeIds s (k + 1) =
      s.nextStreamId ::
        probeIds { s with nextStreamId := wrappingNextStreamId s.nextStreamId } k := by
  unfold probeIds
  rw [List.range_succ_eq_map, List.map_cons, List.map_map]
  refine congrArg₂ _ rfl ?_
  apply List.map_congr_left
  intro i _
  simp [Function.comp, Function.iterate_succ_apply]

theorem addEntLoop_ok (ent : StreamEnt) (rx : List Nat) (n : Nat) :
    ∀ (s : StreamMap) (id : StreamId),
      (probeIds s n).find? (fun j => (lookupM s.m j).isNone) = some id →
      ∃ nid, addEntLoop ent rx n s =
        (Except.ok id,
          { m := (id, ent) :: s.m,
            rxs := (id, s.nextPriority, rx) :: s.rxs,
            nextStreamId := nid,
            nextPriority := s.nextPriority + 1 }) := by
  induction n with
  | zero => intro s id h; simp [probeIds] at h
  | succ k ih =>
    intro s id h
    rw [probeIds_succ] at h
    cases hvac : (lookupM s.m s.nextStreamId).isNone with
    | true =>
      simp only [List.find?, hvac] at h
      obtain rfl : s.nextStreamId = id := by injection h
      refine ⟨wrappingNextStreamId s.nextStreamId, ?_⟩
      unfold addEntLoop
      dsimp only
      rw [if_pos hvac]
    | false =>
      simp only [List.find?, hvac] at h
      obtain ⟨nid, hrec⟩ :=
        ih { s with nextStreamId := wrappingNextStreamId s.nextStreamId } id h
      refine ⟨nid, ?_⟩
      have hstep : addEntLoop ent rx (k + 1) s =
          addEntLoop ent rx k { s with nextStreamId := wrappingNextStreamId s.nextStreamId } := by
        simp only [addEntLoop]
        rw [if_neg (by simp [hvac])]
      rw [hstep, hrec]

theorem addEntLoop_err (ent : StreamEnt) (rx : List Nat) (n : Nat) :
    ∀ s : StreamMap,
      (probeIds s n).find? (fun j => (lookupM s.m j).isNone) = none →
      (addEntLoop ent rx n s).1 = Except.error Error.IdRangeFull := by
  induction n with
  | zero => intro s _; rfl
  | succ k ih =>
    intro s h
    rw [probeIds_succ] at h
    cases hvac : (lookupM s.m s.nextStreamId).isNone with
    | true =>
      simp only [List.find?, hvac] at h
      exact absurd h (by simp)
    | false =>
      simp only [List.find?, hvac] at h
      have hstep : addEntLoop ent rx (k + 1) s =
          addEntLoop ent rx k { s with nextStreamId := wrappingNextStreamId s.nextStreamId } := by
        simp only [addEntLoop]
        rw [if_neg (by simp [hvac])]
      rw [hstep]
      exact ih _ h

/-- A successful probe search yields a valid, vacant stream id. -/
theorem probeIds_find_sound (s : StreamMap) (n : Nat) (id : StreamId)
    (hfind : (probeIds s n).find? (fun j => (lookupM s.m j).isNone) = some id)
    (h1 : 1 ≤ s.nextStreamId) (h2 : s.nextStreamId ≤ 0xFFFF) :
    1 ≤ id ∧ id ≤ 0xFFFF ∧ lookupM s.m id = none := by
  have hmem : id ∈ probeIds s n := List.mem_of_find?_eq_some hfind
  have hpred := List.find?_some hfind
  obtain ⟨i, _, hi⟩ := List.mem_map.1 hmem
  have hbounds := wrappingNextStreamId_iterate_bounds s.nextStreamId h1 h2 i
  rw [hi] at hbounds
  refine ⟨hbounds.1, hbounds.2, by simpa [Option.isNone_iff_eq_none] using hpred⟩

/-- Claim C9: `add_ent` probes successive stream identifiers starting at the
map's next-stream-id, advancing with `wrapping_next_stream_id` — which maps
`0xFFFF` to `1` and `k` to `k + 1` for `1 ≤ k < 0xFFFF`, so identifier `0`
is never produced — for at most 65536 attempts.  It inserts an `Open` entry
at the first vacant identifier, enrolls the source in the scheduler with a
freshly assigned priority, and returns that (never-zero) identifier; it
returns `IdRangeFull` when every probe finds an occupied slot. -/
theorem add_ent_spec (s : StreamMap) (sink : Nat) (rx : List Nat)
    (sw cc : Nat) (h1 : 1 ≤ s.nextStreamId) (h2 : s.nextStreamId ≤ 0xFFFF) :
    wrappingNextStreamId 0xFFFF = 1 ∧
    (∀ k, 1 ≤ k → k < 0xFFFF → wrappingNextStreamId k = k + 1) ∧
    (∀ id,
      (probeIds s 65536).find? (fun j => (lookupM s.m j).isNone) = some id →
      1 ≤ id ∧ id ≤ 0xFFFF ∧ lookupM s.m id = none ∧
      ∃ nid, s.add_ent sink rx sw cc =
        (Except.ok id,
          { m := (id, StreamEnt.Open ⟨sink, sw, 0, cc⟩) :: s.m,
            rxs := (id, s.nextPriority, rx) :: s.rxs,
            nextStreamId := nid,
            nextPriority := s.nextPriority + 1 })) ∧
    ((probeIds s 65536).find? (fun j => (lookupM s.m j).isNone) = none →
      (s.add_ent sink rx sw cc).1 = Except.error Error.IdRangeFull) := by
  refine ⟨rfl, ?_, ?_, ?_⟩
  · intro k hk1 hk2
    unfold wrappingNextStreamId
    rw [if_pos (Nat.succ_le_of_lt hk2)]
  · intro id hfind
    obtain ⟨g1, g2, g3⟩ := probeIds_find_sound s 65536 id hfind h1 h2
    exact ⟨g1, g2, g3, addEntLoop_ok _ _ 65536 s id hfind⟩
  · intro hfind
    exact addEntLoop_err _ _ 65536 s hfind

/-- Witness for `add_ent_spec` at a concrete input (the empty map with
initial stream id 1). -/
theorem add_ent_spec_witness :
    1 ≤ (StreamMap.new 1).nextStreamId ∧
    (StreamMap.new 1).nextStreamId ≤ 0xFFFF ∧
    (wrappingNextStreamId 0xFFFF = 1 ∧
      (∀ k, 1 ≤ k → k < 0xFFFF → wrappingNextStreamId k = k + 1) ∧
      (∀ id,
        (probeIds (StreamMap.new 1) 65536).find?
            (fun j => (lookupM (StreamMap.new 1).m j).isNone) = some id →
        1 ≤ id ∧ id ≤ 0xFFFF ∧ lookupM (StreamMap.new 1).m id = none ∧
        ∃ nid, (StreamMap.new 1).add_ent 9 [4] 500 7 =
          (Except.ok id,
            { m := (id, StreamEnt.Open ⟨9, 500, 0, 7⟩) :: (StreamMap.new 1).m,
              rxs := (id, (StreamMap.new 1).nextPriority, [4]) :: (StreamMap.new 1).rxs,
              nextStreamId := nid,
              nextPriority := (StreamMap.new 1).nextPriority + 1 })) ∧
      ((probeIds (StreamMap.new 1) 65536).find?
          (fun j => (lookupM (StreamMap.new 1).m j).isNone) = none →
        ((StreamMap.new 1).add_ent 9 [4] 500 7).1 = Except.error Error.IdRangeFull)) :=
  ⟨by decide, by decide, add_ent_spec (StreamMap.new 1) 9 [4] 500 7 (by decide) (by decide)⟩

/-! ## Divergences exhibited on concrete states (claims C1, C2, C3) -/

/-- Claim C1 (divergence): after `add_ent` (yielding stream id 1 from a map
created with initial id 1) and then `ending_msg_received(1)`, the entry for
stream 1 is `EndReceived`, yet its scheduling entry is still present in
`rxs` — the `Open → EndReceived` transition does not remove the stream from
the scheduling structure, violating the documented invariant that every id
in `rxs` maps to an `Open` entry. -/
theorem ending_msg_received_keeps_scheduler_entry :
    lookupM exampleAfterEnd.m 1 = some StreamEnt.EndReceived ∧
    exampleAfterEnd.rxs.map (fun e => e.1) = [1] := by
  constructor
  · rfl
  · rfl

/-- Claim C2 (divergence): comparing a monotonic tracker (constructed at
now = 0) against the future instant `t = 5` returns `Ordering.gt` — the
ordering of `t` against `now` — whereas the wall-clock tracker at the same
configuration returns `Ordering.lt`, the ordering of `now` against `t`
that the claim describes for both.  The recorded earliest wakeup is `5`
in both cases, as claimed. -/
theorem instant_cmp_direction_divergence :
    (TrackingInstantNow.cmp (TrackingInstantNow.new 0) 5).1 = Ordering.gt ∧
    (TrackingSystemTimeNow.cmp (TrackingSystemTimeNow.new 0) 5).1 = Ordering.lt ∧
    (TrackingInstantNow.cmp (TrackingInstantNow.new 0) 5).2.earliest = some 5 ∧
    (TrackingSystemTimeNow.cmp (TrackingSystemTimeNow.new 0) 5).2.earliest = some 5 ∧
    (instant_cmp none 10 5).1 = Ordering.lt ∧
    compare (10 : Nat) 5 = Ordering.gt := by
  refine ⟨by decide, by decide, by decide, by decide, by decide, by decide⟩

/-- Claim C3 (divergence): terminating a stream whose entry is `EndSent`
with `explicitly_dropped = false` using reason `StreamTargetClosed` returns
`DontSend` as claimed, but the entry is removed from the map (the
`*explicitly_dropped = true` write lands in the removed temporary): a later
`ending_msg_received` on the same id finds no stream and reports the
nonexistent-stream protocol violation instead of quietly dropping it. -/
theorem terminate_end_sent_divergence :
    (exampleEndSent.terminate 1 TerminateReason.StreamTargetClosed).1 =
      Except.ok ShouldSendEnd.DontSend ∧
    lookupM (exampleEndSent.terminate 1 TerminateReason.StreamTargetClosed).2.m 1 =
      none ∧
    ((exampleEndSent.terminate 1 TerminateReason.StreamTargetClosed).2.ending_msg_received
        1).1 =
      Except.error (Error.CircProto "Received END cell on nonexistent stream") := by
  exact ⟨rfl, rfl, rfl⟩

/-! ## Key blinding (claim C7) -/

/-- Claim C7: for every 32-byte blinding input `h` and every expanded
keypair `kp` whose public key is derived from its secret scalar (and hence
decompresses to a valid Edwards point), `blind_pubkey(kp.public, h)`
succeeds and returns exactly the public key of `blind_keypair(kp, h)`.
Stated over any model of the curve operations satisfying the
scalar-multiplication and compression round-trip laws of
curve25519-dalek. -/
theorem blind_pubkey_keypair_agree (M : EdwardsModel) (sha512 : List Nat → List Nat)
    (kp : ExpandedKeypairM) (h : List Nat)
    (hwf : kp.public = M.compress (M.smul kp.secret.scalar M.basepoint)) :
    (M.decompress kp.public).isSome = true ∧
    blind_pubkey M kp.public h = Except.ok (blind_keypair M sha512 kp h).public := by
  have hdec : M.decompress kp.public = some (M.smul kp.secret.scalar M.basepoint) := by
    rw [hwf]
    exact M.decompress_compress _
  have key : M.smul (clamp_blinding_factor h) (M.smul kp.secret.scalar M.basepoint) =
      M.smul (kp.secret.scalar * clamp_blinding_factor h) M.basepoint := by
    rw [← M.mul_smul, mul_comm]
  constructor
  · rw [hdec]
    rfl
  · unfold blind_pubkey blind_keypair
    dsimp only
    rw [hdec]
    dsimp only
    rw [M.decompress_compress]
    dsimp only
    rw [key]

/-- Witness for `blind_pubkey_keypair_agree`: the cyclic model of order `L`
with the keypair of secret scalar 2. -/
theorem blind_pubkey_keypair_agree_witness :
    toyKeypair.public =
      cyclicEdwards.compress
        (cyclicEdwards.smul toyKeypair.secret.scalar cyclicEdwards.basepoint) ∧
    ((cyclicEdwards.decompress toyKeypair.public).isSome = true ∧
      blind_pubkey cyclicEdwards toyKeypair.public (List.replicate 32 0) =
        Except.ok (blind_keypair cyclicEdwards (fun _ => List.replicate 64 0)
          toyKeypair (List.replicate 32 0)).public) :=
  ⟨rfl,
    blind_pubkey_keypair_agree cyclicEdwards (fun _ => List.replicate 64 0)
      toyKeypair (List.replicate 32 0) rfl⟩

end Arti
